import Mathlib

/-!
Verification development for the histomigrate migration engine core.

The definitions below are a shallow embedding of the Go sources:
`migrate_extended.go` (orchestrator, queueing pipelines, dirty-state
executor) and `database/postgres/postgres_extended.go` (the Extended
storage driver's history-table operations). Pieces of the repository
that are referenced but whose files are not part of the sources at
hand (the source drivers, `newMigration`, `versionExists`,
`runMigrations`, the lock, and the table schema) are modelled from the
specification and marked as such in their doc comments.
-/

set_option maxRecDepth 8000

namespace Histomigrate

/-- A Migration Record (struct `Migration` of the core package).
`Body` is the optional script content (a `nil` body in Go is `none`);
content values are abstracted as natural numbers. The executor runs
the buffered content, which equals the body content once buffering has
completed. -/
structure Migration where
  Version : Nat
  TargetVersion : Int
  UpKindMigration : Bool := false
  Body : Option Nat := none
  deriving DecidableEq, Repr

/-- The driver operations the executor can issue against the storage
backend, mirroring the `database.Driver` / `database.ExtendedDriver`
mutating methods used by `handleSingleMigration`. -/
inductive DriverOp where
  | addDirtyMigration (version : Nat)
  | updateMigrationDirtyFlag (version : Nat) (dirty : Bool)
  | removeMigration (version : Nat)
  | setVersion (version : Int) (dirty : Bool)
  | run (body : Nat)
  deriving DecidableEq, Repr

/-- One row of the Extended migrations history table:
`(migration_timestamp, dirty)`. The `applied_at` column is ignored:
no claim depends on it. -/
structure Row where
  ts : Nat
  dirty : Bool
  deriving DecidableEq, Repr

/-- Backend bookkeeping state: the Extended history table plus the
Basic single `(version, dirty)` pointer. -/
structure DbState where
  ext : List Row
  basicVersion : Int
  basicDirty : Bool
  deriving DecidableEq, Repr

/-- Model of `AddDirtyMigration` (postgres_extended.go:152):
`INSERT INTO t (migration_timestamp) VALUES (v)`.
Modelled from the spec: the table schema (`ensureVersionTable`, in the
base Postgres driver file absent from the sources) is what supplies
the dirty default; per the spec, `AddDirtyMigration(version)` for Up
"inserts a new history row" marked dirty. -/
def AddDirtyMigration (l : List Row) (v : Nat) : List Row :=
  l ++ [⟨v, true⟩]

/-- Model of `UpdateMigrationDirtyFlag` (postgres_extended.go:192):
`UPDATE t SET dirty = d WHERE migration_timestamp = v`. -/
def UpdateMigrationDirtyFlag (l : List Row) (v : Nat) (d : Bool) : List Row :=
  l.map (fun r => if r.ts = v then ⟨r.ts, d⟩ else r)

/-- Model of `RemoveMigration` (postgres_extended.go:268):
`DELETE FROM t WHERE migration_timestamp = v`. -/
def RemoveMigration (l : List Row) (v : Nat) : List Row :=
  l.filter (fun r => r.ts != v)

/-- Model of `IsMigrationApplied` (postgres_extended.go:234) on an existing
table: `SELECT COUNT(*) > 0 FROM t WHERE migration_timestamp = v`. -/
def IsMigrationApplied (l : List Row) (v : Nat) : Bool :=
  l.any (fun r => r.ts == v)

/-- Effect of one driver operation on the backend bookkeeping state.
`run` executes user script content and does not touch the migrations
table or the version pointer. -/
def applyOp (st : DbState) : DriverOp → DbState
  | .addDirtyMigration v => { st with ext := AddDirtyMigration st.ext v }
  | .updateMigrationDirtyFlag v d => { st with ext := UpdateMigrationDirtyFlag st.ext v d }
  | .removeMigration v => { st with ext := RemoveMigration st.ext v }
  | .setVersion v d => { st with basicVersion := v, basicDirty := d }
  | .run _ => st

/-- The step-1 (mark dirty) operation `handleSingleMigration` issues
(migrate_extended.go:285-299). -/
def markDirtyOp (isExtended : Bool) (migr : Migration) : DriverOp :=
  if isExtended then
    if migr.UpKindMigration then .addDirtyMigration migr.Version
    else .updateMigrationDirtyFlag migr.Version true
  else .setVersion migr.TargetVersion true

/-- The step-3 (mark clean) operation `handleSingleMigration` issues
(migrate_extended.go:308-322). -/
def markCleanOp (isExtended : Bool) (migr : Migration) : DriverOp :=
  if isExtended then
    if migr.UpKindMigration then .updateMigrationDirtyFlag migr.Version false
    else .removeMigration migr.Version
  else .setVersion migr.TargetVersion false

/-- The step-2 operations: run the buffered body when the record has
one (migrate_extended.go:301-306). -/
def bodyOps (migr : Migration) : List DriverOp :=
  match migr.Body with
  | none => []
  | some b => [.run b]

/-- The version mentioned by the Go error wrapping at steps 1 and 3:
`migr.Version` on an Extended driver, `migr.TargetVersion` on a Basic
driver. -/
def stepMsgVersion (isExtended : Bool) (migr : Migration) : Int :=
  if isExtended then (migr.Version : Int) else migr.TargetVersion

/-- Which of the three executor steps an error was wrapped at. -/
inductive StepTag where
  | markDirty
  | runBody
  | markClean
  deriving DecidableEq, Repr

/-- A wrapped executor error: the step whose driver call failed, the
version named in the wrapping message, and the underlying driver
error code. -/
structure WrappedErr where
  step : StepTag
  version : Int
  code : Nat
  deriving DecidableEq, Repr

/-- Step 3 of `handleSingleMigration`, threading state and call trace. -/
def handleCleanPhase (isExtended : Bool) (fails : DriverOp → Option Nat)
    (migr : Migration) (st : DbState) (tr : List DriverOp) :
    Option WrappedErr × DbState × List DriverOp :=
  match fails (markCleanOp isExtended migr) with
  | some c => (some ⟨.markClean, stepMsgVersion isExtended migr, c⟩, st,
      tr ++ [markCleanOp isExtended migr])
  | none => (none, applyOp st (markCleanOp isExtended migr),
      tr ++ [markCleanOp isExtended migr])

/-- Model of `handleSingleMigration` (migrate_extended.go:282). `fails` is the
driver failure oracle: `fails op = some c` means that driver call
fails with underlying error `c` and, since every bookkeeping statement
runs in its own transaction, leaves the bookkeeping state unchanged;
`fails op = none` means it succeeds and its effect applies. Returns
the wrapped error (if any), the resulting backend state, and the trace
of driver calls attempted, in order. -/
def handleSingleMigration (isExtended : Bool) (fails : DriverOp → Option Nat)
    (migr : Migration) (st : DbState) : Option WrappedErr × DbState × List DriverOp :=
  match fails (markDirtyOp isExtended migr) with
  | some c => (some ⟨.markDirty, stepMsgVersion isExtended migr, c⟩, st,
      [markDirtyOp isExtended migr])
  | none =>
    match migr.Body with
    | some b =>
      match fails (.run b) with
      | some c => (some ⟨.runBody, (migr.Version : Int), c⟩,
          applyOp st (markDirtyOp isExtended migr),
          [markDirtyOp isExtended migr, .run b])
      | none => handleCleanPhase isExtended fails migr
          (applyOp st (markDirtyOp isExtended migr))
          [markDirtyOp isExtended migr, .run b]
    | none => handleCleanPhase isExtended fails migr
        (applyOp st (markDirtyOp isExtended migr))
        [markDirtyOp isExtended migr]

/-- When no driver call fails, the executor performs exactly
mark-dirty, the optional body run, and mark-clean, in that order. -/
theorem handleSingleMigration_noFail (isExtended : Bool) (fails : DriverOp → Option Nat)
    (migr : Migration) (st : DbState) (h : ∀ op, fails op = none) :
    handleSingleMigration isExtended fails migr st =
      (none,
       applyOp (applyOp st (markDirtyOp isExtended migr)) (markCleanOp isExtended migr),
       markDirtyOp isExtended migr :: (bodyOps migr ++ [markCleanOp isExtended migr])) := by
  unfold handleSingleMigration handleCleanPhase bodyOps
  cases hb : migr.Body <;> simp [h, hb]

/-- Number of history rows recorded for a version. -/
def countRows (l : List Row) (v : Nat) : Nat :=
  (l.filter (fun r => r.ts == v)).length

/-- The record's own dirty marker is set in the backend state: some
history row for the record's version is flagged dirty (Extended), or
the single pointer sits at the record's target version with the dirty
bit on (Basic). -/
def dirtyMarkerSet (isExtended : Bool) (migr : Migration) (st : DbState) : Prop :=
  if isExtended then
    ∃ r ∈ st.ext, r.ts = migr.Version ∧ r.dirty = true
  else st.basicVersion = migr.TargetVersion ∧ st.basicDirty = true

/-- After the step-1 mark-dirty operation succeeds, the record's dirty
marker is set (for an Extended Down record this needs the version to
have at least one history row, which is exactly the situation in which
Down records are queued). -/
theorem dirtyMarker_after_markDirty (isExtended : Bool) (migr : Migration) (st : DbState)
    (hrow : isExtended = true → migr.UpKindMigration = false →
      1 ≤ countRows st.ext migr.Version) :
    dirtyMarkerSet isExtended migr (applyOp st (markDirtyOp isExtended migr)) := by
  cases isExtended with
  | false =>
    simp [dirtyMarkerSet, markDirtyOp, applyOp]
  | true =>
    cases hup : migr.UpKindMigration with
    | true =>
      simp only [dirtyMarkerSet, markDirtyOp, applyOp, AddDirtyMigration, hup, if_true]
      exact ⟨⟨migr.Version, true⟩, by simp, rfl, rfl⟩
    | false =>
      have h1 := hrow rfl hup
      have hx : ∃ r ∈ st.ext, r.ts = migr.Version := by
        by_contra hno
        push_neg at hno
        have : st.ext.filter (fun r => r.ts == migr.Version) = [] := by
          refine List.filter_eq_nil_iff.mpr ?_
          intro r hr
          simpa using hno r hr
        simp [countRows, this] at h1
      obtain ⟨r, hrmem, hrts⟩ := hx
      simp only [dirtyMarkerSet, markDirtyOp, applyOp, hup, if_true, if_false,
        Bool.false_eq_true, UpdateMigrationDirtyFlag]
      refine ⟨⟨migr.Version, true⟩, ?_, rfl, rfl⟩
      refine List.mem_map.mpr ⟨r, hrmem, ?_⟩
      simp [hrts]

/-- C1: for every Migration Record, when no driver call fails, the
executor `handleSingleMigration` performs exactly three steps in
order: (1) mark dirty — on an Extended driver `AddDirtyMigration(version)`
for an Up record or `UpdateMigrationDirtyFlag(version, true)` for a
Down record, on a Basic driver `SetVersion(targetVersion, true)`;
(2) if the record's body is non-nil, `Run` the buffered content;
(3) mark clean — on an Extended driver
`UpdateMigrationDirtyFlag(version, false)` for Up or
`RemoveMigration(version)` for Down, on a Basic driver
`SetVersion(targetVersion, false)` — and returns no error. -/
theorem C1_executor_three_steps (isExtended : Bool) (fails : DriverOp → Option Nat)
    (migr : Migration) (st : DbState) (h : ∀ op, fails op = none) :
    (handleSingleMigration isExtended fails migr st).2.2 =
      [if isExtended then
         (if migr.UpKindMigration then DriverOp.addDirtyMigration migr.Version
          else DriverOp.updateMigrationDirtyFlag migr.Version true)
       else DriverOp.setVersion migr.TargetVersion true]
      ++ (match migr.Body with
          | some b => [DriverOp.run b]
          | none => [])
      ++ [if isExtended then
            (if migr.UpKindMigration then DriverOp.updateMigrationDirtyFlag migr.Version false
             else DriverOp.removeMigration migr.Version)
          else DriverOp.setVersion migr.TargetVersion false]
    ∧ (handleSingleMigration isExtended fails migr st).1 = none := by
  rw [handleSingleMigration_noFail isExtended fails migr st h]
  refine ⟨?_, rfl⟩
  simp only [markDirtyOp, markCleanOp, bodyOps]
  cases migr.Body <;> simp

/-- Witness for C1 at a concrete Up record with a body on an Extended
driver. -/
theorem C1_executor_three_steps_witness :
    (handleSingleMigration true (fun _ => none) ⟨7, 7, true, some 3⟩
        ⟨[], 0, false⟩).2.2 =
      [DriverOp.addDirtyMigration 7, DriverOp.run 3,
       DriverOp.updateMigrationDirtyFlag 7 false] := by
  have h := C1_executor_three_steps true (fun _ => none) ⟨7, 7, true, some 3⟩
    ⟨[], 0, false⟩ (fun _ => rfl)
  simpa using h.1

/-- C2: if any of the executor's three steps fails, `handleSingleMigration`
returns immediately with an error wrapped with the offending version;
the trace shows that no step already completed is undone (no
compensating driver call is issued), and in particular a failure while
running the record's content (step 2) returns after the dirty marker
was set and without clearing it, leaving that record's dirty marker
set to true in the backend. -/
theorem C2_executor_failure_paths (isExtended : Bool) (fails : DriverOp → Option Nat)
    (migr : Migration) (st : DbState)
    (hrow : isExtended = true → migr.UpKindMigration = false →
      1 ≤ countRows st.ext migr.Version) :
    (∀ c, fails (markDirtyOp isExtended migr) = some c →
       handleSingleMigration isExtended fails migr st =
         (some ⟨.markDirty, stepMsgVersion isExtended migr, c⟩, st,
          [markDirtyOp isExtended migr]))
    ∧ (∀ b c, migr.Body = some b →
         fails (markDirtyOp isExtended migr) = none →
         fails (DriverOp.run b) = some c →
         handleSingleMigration isExtended fails migr st =
           (some ⟨.runBody, (migr.Version : Int), c⟩,
            applyOp st (markDirtyOp isExtended migr),
            [markDirtyOp isExtended migr, DriverOp.run b])
         ∧ dirtyMarkerSet isExtended migr
             (handleSingleMigration isExtended fails migr st).2.1)
    ∧ (∀ c, fails (markDirtyOp isExtended migr) = none →
         (∀ b, migr.Body = some b → fails (DriverOp.run b) = none) →
         fails (markCleanOp isExtended migr) = some c →
         handleSingleMigration isExtended fails migr st =
           (some ⟨.markClean, stepMsgVersion isExtended migr, c⟩,
            applyOp st (markDirtyOp isExtended migr),
            markDirtyOp isExtended migr :: (bodyOps migr ++ [markCleanOp isExtended migr]))) := by
  refine ⟨?_, ?_, ?_⟩
  · intro c hc
    unfold handleSingleMigration
    simp [hc]
  · intro b c hb hd hr
    have heq : handleSingleMigration isExtended fails migr st =
        (some ⟨.runBody, (migr.Version : Int), c⟩,
         applyOp st (markDirtyOp isExtended migr),
         [markDirtyOp isExtended migr, DriverOp.run b]) := by
      unfold handleSingleMigration
      simp [hb, hd, hr]
    refine ⟨heq, ?_⟩
    rw [heq]
    exact dirtyMarker_after_markDirty isExtended migr st hrow
  · intro c hd hr hc
    unfold handleSingleMigration handleCleanPhase
    cases hb : migr.Body with
    | none => simp [hd, hc, bodyOps, hb]
    | some b => simp [hd, hc, hr b hb, bodyOps, hb]

/-- Witness for C2: step 2 fails on a concrete Extended Up record; the
dirty row remains. -/
theorem C2_executor_failure_paths_witness :
    handleSingleMigration true
        (fun op => match op with | DriverOp.run _ => some 9 | _ => none)
        ⟨5, 5, true, some 3⟩ ⟨[], 0, false⟩ =
      (some ⟨.runBody, (5 : Int), 9⟩, ⟨[⟨5, true⟩], 0, false⟩,
       [DriverOp.addDirtyMigration 5, DriverOp.run 3])
    ∧ dirtyMarkerSet true ⟨5, 5, true, some 3⟩
        (handleSingleMigration true
          (fun op => match op with | DriverOp.run _ => some 9 | _ => none)
          ⟨5, 5, true, some 3⟩ ⟨[], 0, false⟩).2.1 := by
  have h := (C2_executor_failure_paths true
    (fun op => match op with | DriverOp.run _ => some 9 | _ => none)
    ⟨5, 5, true, some 3⟩ ⟨[], 0, false⟩
    (by intro _ hfalse; simp at hfalse)).2.1 3 9 rfl rfl rfl
  refine ⟨?_, h.2⟩
  rw [h.1]
  simp [applyOp, markDirtyOp, AddDirtyMigration]

/-- Errors a queueing pipeline can put on the channel (other than the
`ErrNoChange` sentinel, which gets its own message constructor). -/
inductive MigErr where
  | sequenceErr (v : Nat)
  | srcFail (code : Nat)
  deriving DecidableEq, Repr

/-- One value sent on the `ret` channel (a channel of interface values in Go):
either a Migration Record, the `ErrNoChange` sentinel, or an error. -/
inductive ChanMsg where
  | migr (m : Migration)
  | noChange
  | err (e : MigErr)
  deriving DecidableEq, Repr

/-- The Migration Records among the messages a pipeline emitted. -/
def records (msgs : List ChanMsg) : List Migration :=
  msgs.filterMap (fun msg => match msg with
    | .migr m => some m
    | _ => none)

/-- Modelled from the spec: the Source Sequence Contract (source
drivers are not among the sources at hand). The sequence is a list of
version identifiers, kept in ascending order by the driver, with
per-version up/down content (`none` when the direction has no script). -/
structure SourceModel where
  versions : List Nat
  bodyUp : Nat → Option Nat
  bodyDown : Nat → Option Nat

/-- Modelled from the spec: `newMigration` for an Up record (the core
file defining it is not among the sources at hand): a record applying
its own version, whose direction is then marked Up by the pipeline
(`migr.UpKindMigration = true`), with the source's up content. -/
def mkUpMigration (sd : SourceModel) (v : Nat) : Migration :=
  ⟨v, (v : Int), true, sd.bodyUp v⟩

/-- Modelled from the spec: `newMigration` for a Down record: the
requested version together with the computed target version, direction
left at its Down default, with the source's down content. -/
def mkDownMigration (sd : SourceModel) (v : Nat) (target : Int) : Migration :=
  ⟨v, target, false, sd.bodyDown v⟩

/-- The `for` loop of `queueUpMigrations` (migrate_extended.go:97-142),
walking the source suffix that starts at the current target version.
`stop` is the cooperative cancellation flag, given as a function of how
many times it has been polled; `count` is `appliedCount`. Advancing
with `Next` moves to the head of the remaining suffix and breaks the
loop at end-of-sequence. Returns the emitted messages and the final
`appliedCount`. -/
def queueUpLoop (sd : SourceModel) (applied : List Int) (limit : Int)
    (stop : Nat → Bool) : Nat → List Nat → Nat → Nat → List ChanMsg × Nat
  | t, rest, count, polls =>
    if ¬(limit = -1 ∨ (count : Int) < limit) then ([], count)
    else if stop polls then ([], count)
    else if (t : Int) ∈ applied then
      match rest with
      | [] => ([], count)
      | t' :: rest' => queueUpLoop sd applied limit stop t' rest' count (polls + 1)
    else
      match rest with
      | [] => ([ChanMsg.migr (mkUpMigration sd t)], count + 1)
      | t' :: rest' =>
        let res := queueUpLoop sd applied limit stop t' rest' (count + 1) (polls + 1)
        (ChanMsg.migr (mkUpMigration sd t) :: res.1, res.2)

/-- Model of `queueUpMigrations` (migrate_extended.go:77): the Bulk-Up pipeline.
`First()` on an empty source reports end-of-sequence, which emits
`ErrNoChange`; otherwise the loop walks the source and, afterwards, the
`appliedCount == 0` check emits `ErrNoChange`. -/
def queueUpMigrations (sd : SourceModel) (applied : List Int) (limit : Int)
    (stop : Nat → Bool) : List ChanMsg :=
  match sd.versions with
  | [] => [ChanMsg.noChange]
  | t :: rest =>
    let res := queueUpLoop sd applied limit stop t rest 0 0
    res.1 ++ (if res.2 = 0 then [ChanMsg.noChange] else [])

/-- The `for` loop of `queueDownMigrations` (migrate_extended.go:196-228):
iterate over the applied list; the target version is the next list
element, or `-1` for the last one. The stop flag is polled first, then
the limit is checked. -/
def queueDownLoop (sd : SourceModel) (limit : Int) (stop : Nat → Bool) :
    List Int → Nat → Nat → List ChanMsg × Nat
  | l, count, polls =>
    match l with
    | [] => ([], count)
    | v :: rest =>
      if stop polls then ([], count)
      else if limit ≠ -1 ∧ limit ≤ (count : Int) then ([], count)
      else
        let target : Int := match rest with
          | [] => -1
          | v' :: _ => v'
        let res := queueDownLoop sd limit stop rest (count + 1) (polls + 1)
        (ChanMsg.migr (mkDownMigration sd v.toNat target) :: res.1, res.2)

/-- Model of `queueDownMigrations` (migrate_extended.go:186): the Bulk-Down
pipeline over the applied versions in the order the driver returned
them (descending). -/
def queueDownMigrations (sd : SourceModel) (applied : List Int) (limit : Int)
    (stop : Nat → Bool) : List ChanMsg :=
  if applied = [] ∨ limit = 0 then [ChanMsg.noChange]
  else
    let res := queueDownLoop sd limit stop applied 0 0
    res.1 ++ (if res.2 = 0 then [ChanMsg.noChange] else [])

/-- Modelled from the spec: `versionExists` (defined in the core file
absent from the sources) validates that the requested version exists in
the source sequence, failing with a sequence error otherwise. -/
def versionExists (sd : SourceModel) (v : Nat) : Option MigErr :=
  if v ∈ sd.versions then none else some (MigErr.sequenceErr v)

/-- Model of `queueUpSingleMigration` (migrate_extended.go:152): validate the
version, honour the stop flag (emitting nothing when stopped), then
enqueue exactly one Up record. -/
def queueUpSingleMigration (sd : SourceModel) (stop : Bool) (v : Nat) :
    List ChanMsg :=
  match versionExists sd v with
  | some e => [ChanMsg.err e]
  | none =>
    if stop then []
    else [ChanMsg.migr (mkUpMigration sd v)]

/-- The result of the source driver's `Prev(v)`: a version, the
end-of-sequence sentinel (`os.ErrNotExist`), or a generic failure. -/
inductive SrcResult where
  | ok (v : Nat)
  | notExist
  | fail (code : Nat)
  deriving DecidableEq, Repr

/-- Model of `Prev` on the list-backed source model: the greatest version below
`v`, or `notExist`. -/
def srcPrev (sd : SourceModel) (v : Nat) : SrcResult :=
  match (sd.versions.filter (fun w => w < v)).getLast? with
  | none => SrcResult.notExist
  | some p => SrcResult.ok p

/-- Model of `queueDownSingleMigration` (migrate_extended.go:238), parameterised
by what `Prev(v)` returns: validate the version, honour the stop flag,
start from `targetVersion = -1`, surface a non-NotExist `Prev` error,
keep `-1` on NotExist, otherwise take the previous version; then
enqueue exactly one Down record. -/
def queueDownSingleMigrationWith (sd : SourceModel) (prevRes : SrcResult)
    (stop : Bool) (v : Nat) : List ChanMsg :=
  match versionExists sd v with
  | some e => [ChanMsg.err e]
  | none =>
    if stop then []
    else
      match prevRes with
      | .fail c => [ChanMsg.err (MigErr.srcFail c)]
      | .notExist => [ChanMsg.migr (mkDownMigration sd v (-1))]
      | .ok p => [ChanMsg.migr (mkDownMigration sd v (p : Int))]

/-- Model of `queueDownSingleMigration` with `Prev` answered by the list-backed
source model. -/
def queueDownSingleMigration (sd : SourceModel) (stop : Bool) (v : Nat) :
    List ChanMsg :=
  queueDownSingleMigrationWith sd (srcPrev sd v) stop v

/-- Outcome of a public orchestrator operation. -/
inductive MigResult where
  | ok
  | noChange
  | capabilityErr
  | err (e : MigErr)
  | execErr (w : WrappedErr)
  deriving DecidableEq, Repr

/-- Modelled from the spec: `runMigrations`, the Orchestrator's consumer
loop (defined in the core file absent from the sources): read from the
channel until closed; surface an error or the `NoChange` sentinel
immediately; otherwise hand the record to the Dirty-State Executor,
stopping at its first failure. Also returns the final backend state and
the concatenated trace of driver calls the executor issued. -/
def runMigrations (isExtended : Bool) (fails : DriverOp → Option Nat) :
    DbState → List ChanMsg → MigResult × DbState × List DriverOp
  | st, [] => (MigResult.ok, st, [])
  | st, ChanMsg.noChange :: _ => (MigResult.noChange, st, [])
  | st, ChanMsg.err e :: _ => (MigResult.err e, st, [])
  | st, ChanMsg.migr m :: rest =>
    match handleSingleMigration isExtended fails m st with
    | (some w, st', tr) => (MigResult.execErr w, st', tr)
    | (none, st', tr) =>
      let res := runMigrations isExtended fails st' rest
      (res.1, res.2.1, tr ++ res.2.2)

/-- The orchestrator instance: its source and whether its database
driver satisfies the `database.ExtendedDriver` capability. The lock
(not among the sources at hand) is modelled from the spec as acquired
and released around the operation, with no effect on the outcome. -/
structure MigrateModel where
  sd : SourceModel
  isExtendedDrv : Bool

/-- Model of `DoMigration` (migrate_extended.go:15): on a non-Extended driver,
fail with the capability error; otherwise short-circuit to `NoChange`
when the version is already applied, else queue the single Up record
and run the consumer loop. -/
def DoMigration (m : MigrateModel) (fails : DriverOp → Option Nat)
    (stop : Bool) (st : DbState) (v : Nat) : MigResult × DbState × List DriverOp :=
  if m.isExtendedDrv then
    if IsMigrationApplied st.ext v then (MigResult.noChange, st, [])
    else runMigrations true fails st (queueUpSingleMigration m.sd stop v)
  else (MigResult.capabilityErr, st, [])

/-- Model of `UndoMigration` (migrate_extended.go:44): on a non-Extended driver,
fail with the capability error; otherwise short-circuit to `NoChange`
when the version is not applied, else queue the single Down record and
run the consumer loop. -/
def UndoMigration (m : MigrateModel) (fails : DriverOp → Option Nat)
    (stop : Bool) (st : DbState) (v : Nat) : MigResult × DbState × List DriverOp :=
  if m.isExtendedDrv then
    if IsMigrationApplied st.ext v then
      runMigrations true fails st (queueDownSingleMigration m.sd stop v)
    else (MigResult.noChange, st, [])
  else (MigResult.capabilityErr, st, [])

/-- C7: `DoMigration(v)` and `UndoMigration(v)` on a driver that is not
an `ExtendedDriver` return a capability error immediately, with no
driver call issued and the backend untouched; on an `ExtendedDriver`,
`DoMigration(v)` returns `NoChange` with no driver call (in particular
no `Run`) when `IsMigrationApplied(v)` is true, and `UndoMigration(v)`
returns `NoChange` with no driver call when `IsMigrationApplied(v)` is
false. -/
theorem C7_single_version_short_circuit (m : MigrateModel)
    (fails : DriverOp → Option Nat) (stop : Bool) (st : DbState) (v : Nat) :
    (m.isExtendedDrv = false →
      DoMigration m fails stop st v = (MigResult.capabilityErr, st, [])
      ∧ UndoMigration m fails stop st v = (MigResult.capabilityErr, st, []))
    ∧ (m.isExtendedDrv = true → IsMigrationApplied st.ext v = true →
      DoMigration m fails stop st v = (MigResult.noChange, st, []))
    ∧ (m.isExtendedDrv = true → IsMigrationApplied st.ext v = false →
      UndoMigration m fails stop st v = (MigResult.noChange, st, [])) := by
  refine ⟨?_, ?_, ?_⟩
  · intro hdrv
    constructor <;> simp [DoMigration, UndoMigration, hdrv]
  · intro hdrv happ
    simp [DoMigration, hdrv, happ]
  · intro hdrv happ
    simp [UndoMigration, hdrv, happ]

/-- Witness for C7 at concrete instances: a Basic-driver call, an
already-applied `DoMigration`, and an unapplied `UndoMigration`. -/
theorem C7_single_version_short_circuit_witness :
    DoMigration ⟨⟨[4], fun _ => none, fun _ => none⟩, false⟩ (fun _ => none)
        false ⟨[], 0, false⟩ 4 = (MigResult.capabilityErr, ⟨[], 0, false⟩, [])
    ∧ DoMigration ⟨⟨[4], fun _ => none, fun _ => none⟩, true⟩ (fun _ => none)
        false ⟨[⟨4, false⟩], 0, false⟩ 4 =
        (MigResult.noChange, ⟨[⟨4, false⟩], 0, false⟩, [])
    ∧ UndoMigration ⟨⟨[4], fun _ => none, fun _ => none⟩, true⟩ (fun _ => none)
        false ⟨[], 0, false⟩ 4 = (MigResult.noChange, ⟨[], 0, false⟩, []) := by
  refine ⟨?_, ?_, ?_⟩
  · exact (C7_single_version_short_circuit ⟨⟨[4], fun _ => none, fun _ => none⟩, false⟩
      (fun _ => none) false ⟨[], 0, false⟩ 4).1 rfl |>.1
  · exact (C7_single_version_short_circuit ⟨⟨[4], fun _ => none, fun _ => none⟩, true⟩
      (fun _ => none) false ⟨[⟨4, false⟩], 0, false⟩ 4).2.1 rfl (by decide)
  · exact (C7_single_version_short_circuit ⟨⟨[4], fun _ => none, fun _ => none⟩, true⟩
      (fun _ => none) false ⟨[], 0, false⟩ 4).2.2 rfl (by decide)

/-- C8: for a requested version `v` that exists in the source,
`queueDownSingleMigration` enqueues exactly one Down record
(direction left Down, version `v`) whose `targetVersion` is the result
of `Prev(v)` — the version immediately preceding `v` in source
order — or `-1` when `Prev(v)` reports NotFound; when `v` is absent
from the source a sequence error is emitted instead of a record; and a
non-NotFound error from `Prev` is surfaced on the channel. -/
theorem C8_queue_down_single (sd : SourceModel) (v : Nat) :
    (∀ p, v ∈ sd.versions → srcPrev sd v = SrcResult.ok p →
      queueDownSingleMigration sd false v =
        [ChanMsg.migr ⟨v, (p : Int), false, sd.bodyDown v⟩])
    ∧ (v ∈ sd.versions → srcPrev sd v = SrcResult.notExist →
      queueDownSingleMigration sd false v =
        [ChanMsg.migr ⟨v, -1, false, sd.bodyDown v⟩])
    ∧ (v ∉ sd.versions → ∀ prevRes,
      queueDownSingleMigrationWith sd prevRes false v =
        [ChanMsg.err (MigErr.sequenceErr v)])
    ∧ (∀ c, v ∈ sd.versions →
      queueDownSingleMigrationWith sd (SrcResult.fail c) false v =
        [ChanMsg.err (MigErr.srcFail c)]) := by
  refine ⟨?_, ?_, ?_, ?_⟩
  · intro p hmem hprev
    simp [queueDownSingleMigration, queueDownSingleMigrationWith,
      versionExists, hmem, hprev, mkDownMigration]
  · intro hmem hprev
    simp [queueDownSingleMigration, queueDownSingleMigrationWith,
      versionExists, hmem, hprev, mkDownMigration]
  · intro hmem prevRes
    simp [queueDownSingleMigrationWith, versionExists, hmem]
  · intro c hmem
    simp [queueDownSingleMigrationWith, versionExists, hmem, mkDownMigration]

/-- Witness for C8 on the concrete source 2, 5, 9: requesting 9
targets 5; requesting 2 targets -1; requesting 3 yields a sequence
error; a failing `Prev` for 5 is surfaced. -/
theorem C8_queue_down_single_witness :
    queueDownSingleMigration ⟨[2, 5, 9], fun _ => none, fun _ => none⟩ false 9 =
      [ChanMsg.migr ⟨9, 5, false, none⟩]
    ∧ queueDownSingleMigration ⟨[2, 5, 9], fun _ => none, fun _ => none⟩ false 2 =
      [ChanMsg.migr ⟨2, -1, false, none⟩]
    ∧ queueDownSingleMigrationWith ⟨[2, 5, 9], fun _ => none, fun _ => none⟩
        (SrcResult.ok 2) false 3 = [ChanMsg.err (MigErr.sequenceErr 3)]
    ∧ queueDownSingleMigrationWith ⟨[2, 5, 9], fun _ => none, fun _ => none⟩
        (SrcResult.fail 7) false 5 = [ChanMsg.err (MigErr.srcFail 7)] := by
  refine ⟨?_, ?_, ?_, ?_⟩
  · exact (C8_queue_down_single ⟨[2, 5, 9], fun _ => none, fun _ => none⟩ 9).1 5
      (by decide) (by decide)
  · exact (C8_queue_down_single ⟨[2, 5, 9], fun _ => none, fun _ => none⟩ 2).2.1
      (by decide) (by decide)
  · exact (C8_queue_down_single ⟨[2, 5, 9], fun _ => none, fun _ => none⟩ 3).2.2.1
      (by decide) (SrcResult.ok 2)
  · exact (C8_queue_down_single ⟨[2, 5, 9], fun _ => none, fun _ => none⟩ 5).2.2.2 7
      (by decide)

/-- Truncation by an optional bound (`none` meaning unbounded, the
`limit = -1` sentinel). -/
def takeOpt {α : Type} (n : Option Nat) (l : List α) : List α :=
  match n with
  | none => l
  | some k => l.take k

/-- A source version is absent from the applied set (the membership
test `appliedSet[int(targetVersion)]` negated). -/
def notApplied (applied : List Int) (v : Nat) : Bool :=
  !decide ((v : Int) ∈ applied)

/-- Truncating an empty list yields the empty list. -/
theorem takeOpt_nil {a : Type} (n : Option Nat) : takeOpt n ([] : List a) = [] := by
  cases n <;> simp [takeOpt]

/-- With the stop flag never set, the Bulk-Up loop emits exactly the
not-yet-applied source versions in walk order, truncated by the
remaining limit. -/
theorem queueUpLoop_noStop_records (sd : SourceModel) (applied : List Int)
    (limit : Int) (t : Nat) (rest : List Nat) (count polls : Nat) :
    (queueUpLoop sd applied limit (fun _ => false) t rest count polls).1 =
      (takeOpt (if limit = -1 then none else some (limit.toNat - count))
        ((t :: rest).filter (notApplied applied))).map
        (fun v => ChanMsg.migr (mkUpMigration sd v)) := by
  by_cases hl1 : limit = -1
  · subst hl1
    simp only [if_pos rfl]
    induction rest generalizing t count polls with
    | nil =>
      rw [queueUpLoop]
      by_cases happ : (t : Int) ∈ applied <;>
        simp [happ, takeOpt, notApplied]
    | cons t' rest' ih =>
      rw [queueUpLoop]
      by_cases happ : (t : Int) ∈ applied
      · simp [happ, notApplied, takeOpt, ih t' count (polls + 1)]
      · simp [happ, notApplied, takeOpt, ih t' (count + 1) (polls + 1)]
  · simp only [if_neg hl1]
    induction rest generalizing t count polls with
    | nil =>
      rw [queueUpLoop]
      by_cases hc : count < limit.toNat
      · have hci : (count : Int) < limit := Int.lt_toNat.mp hc
        by_cases happ : (t : Int) ∈ applied
        · simp [hl1, hci, happ, takeOpt, notApplied]
        · have htake : limit.toNat - count = (limit.toNat - count - 1) + 1 := by omega
          rw [htake]
          simp [hl1, hci, happ, takeOpt, notApplied]
      · have hci : ¬((count : Int) < limit) := fun h => hc (Int.lt_toNat.mpr h)
        have hz : limit.toNat - count = 0 := by omega
        simp [hl1, hci, hz, takeOpt, notApplied]
    | cons t' rest' ih =>
      rw [queueUpLoop]
      by_cases hc : count < limit.toNat
      · have hci : (count : Int) < limit := Int.lt_toNat.mp hc
        by_cases happ : (t : Int) ∈ applied
        · simp [hl1, hci, happ, takeOpt, notApplied, ih t' count (polls + 1)]
        · have htake : limit.toNat - count = (limit.toNat - (count + 1)) + 1 := by omega
          rw [htake]
          simp [hl1, hci, happ, takeOpt, notApplied, ih t' (count + 1) (polls + 1)]
      · have hci : ¬((count : Int) < limit) := fun h => hc (Int.lt_toNat.mpr h)
        have hz : limit.toNat - count = 0 := by omega
        simp [hl1, hci, hz, takeOpt, notApplied]

/-- Whatever the stop flag does, the Bulk-Up loop emits an initial
segment of what it would emit with the flag never set: observing the
flag only cuts the walk short. -/
theorem queueUpLoop_stop_initial (sd : SourceModel) (applied : List Int)
    (limit : Int) (stop : Nat → Bool) (t : Nat) (rest : List Nat)
    (count polls : Nat) :
    ∃ tl, (queueUpLoop sd applied limit (fun _ => false) t rest count polls).1 =
      (queueUpLoop sd applied limit stop t rest count polls).1 ++ tl := by
  induction rest generalizing t count polls with
  | nil =>
    rw [queueUpLoop, queueUpLoop]
    by_cases hlim : limit = -1 ∨ (count : Int) < limit
    · by_cases hs : stop polls
      · by_cases happ : (t : Int) ∈ applied
        · exact ⟨[], by simp [hlim, hs, happ]⟩
        · exact ⟨[ChanMsg.migr (mkUpMigration sd t)], by simp [hlim, hs, happ]⟩
      · by_cases happ : (t : Int) ∈ applied
        · exact ⟨[], by simp [hlim, hs, happ]⟩
        · exact ⟨[], by simp [hlim, hs, happ]⟩
    · exact ⟨[], by simp [hlim]⟩
  | cons t' rest' ih =>
    rw [queueUpLoop, queueUpLoop]
    by_cases hlim : limit = -1 ∨ (count : Int) < limit
    · by_cases hs : stop polls
      · exact ⟨(queueUpLoop sd applied limit (fun _ => false) t (t' :: rest')
          count polls).1, by rw [queueUpLoop]; simp [hlim, hs]⟩
      · by_cases happ : (t : Int) ∈ applied
        · obtain ⟨tl, htl⟩ := ih t' count (polls + 1)
          exact ⟨tl, by simp [hlim, hs, happ, htl]⟩
        · obtain ⟨tl, htl⟩ := ih t' (count + 1) (polls + 1)
          exact ⟨tl, by simp [hlim, hs, happ, htl]⟩
    · exact ⟨[], by simp [hlim]⟩

/-- The Bulk-Up loop emits only Migration Records, and its final
`appliedCount` counts exactly the records it emitted. -/
theorem queueUpLoop_shape (sd : SourceModel) (applied : List Int)
    (limit : Int) (stop : Nat → Bool) (t : Nat) (rest : List Nat)
    (count polls : Nat) :
    ∃ ms : List Migration,
      (queueUpLoop sd applied limit stop t rest count polls).1 =
        ms.map ChanMsg.migr
      ∧ (queueUpLoop sd applied limit stop t rest count polls).2 =
        count + ms.length := by
  induction rest generalizing t count polls with
  | nil =>
    rw [queueUpLoop]
    by_cases hlim : limit = -1 ∨ (count : Int) < limit
    · by_cases hs : stop polls
      · exact ⟨[], by simp [hlim, hs]⟩
      · by_cases happ : (t : Int) ∈ applied
        · exact ⟨[], by simp [hlim, hs, happ]⟩
        · exact ⟨[mkUpMigration sd t], by simp [hlim, hs, happ]⟩
    · exact ⟨[], by simp [hlim]⟩
  | cons t' rest' ih =>
    rw [queueUpLoop]
    by_cases hlim : limit = -1 ∨ (count : Int) < limit
    · by_cases hs : stop polls
      · exact ⟨[], by simp [hlim, hs]⟩
      · by_cases happ : (t : Int) ∈ applied
        · obtain ⟨ms, h1, h2⟩ := ih t' count (polls + 1)
          exact ⟨ms, by simp [hlim, hs, happ, h1, h2]⟩
        · obtain ⟨ms, h1, h2⟩ := ih t' (count + 1) (polls + 1)
          refine ⟨mkUpMigration sd t :: ms, ?_, ?_⟩
          · simp [hlim, hs, happ, h1]
          · simp [hlim, hs, happ, h2]
            omega
    · exact ⟨[], by simp [hlim]⟩

/-- Records of a concatenation split across the parts. -/
theorem records_append (a b : List ChanMsg) :
    records (a ++ b) = records a ++ records b := by
  simp [records, List.filterMap_append]

/-- Records of a pure record stream. -/
theorem records_map_migr (ms : List Migration) :
    records (ms.map ChanMsg.migr) = ms := by
  induction ms with
  | nil => rfl
  | cons m ms ih => simpa [records] using ih

/-- Records of a stream built by mapping versions to records. -/
theorem records_map_migr_of {a : Type} (f : a → Migration) (l : List a) :
    records (l.map (fun v => ChanMsg.migr (f v))) = l.map f := by
  induction l with
  | nil => rfl
  | cons x l ih => simpa [records] using ih

/-- C3: walking the ascending source from `First()` with `Next()`,
`queueUpMigrations` enqueues Up records for exactly the source
versions not in the applied set, in source order, truncated at `limit`
records (no truncation for `limit = -1`) or end-of-sequence; every
enqueued record is an Up record whose `targetVersion` is its own
version; and with an arbitrary stop flag the walk only ever emits an
initial segment of that, stopping once the flag is observed at the top
of an iteration. -/
theorem C3_queue_up_bulk (sd : SourceModel) (applied : List Int) (limit : Int)
    (stop : Nat → Bool) (hsorted : List.Chain' (· < ·) sd.versions) :
    records (queueUpMigrations sd applied limit (fun _ => false)) =
      (takeOpt (if limit = -1 then none else some limit.toNat)
        (sd.versions.filter (notApplied applied))).map (mkUpMigration sd)
    ∧ (∀ m ∈ records (queueUpMigrations sd applied limit stop),
        m.UpKindMigration = true ∧ m.TargetVersion = (m.Version : Int))
    ∧ ∃ tl, records (queueUpMigrations sd applied limit (fun _ => false)) =
        records (queueUpMigrations sd applied limit stop) ++ tl := by
  have hchar : records (queueUpMigrations sd applied limit (fun _ => false)) =
      (takeOpt (if limit = -1 then none else some limit.toNat)
        (sd.versions.filter (notApplied applied))).map (mkUpMigration sd) := by
    cases hv : sd.versions with
    | nil => simp [queueUpMigrations, hv, records, takeOpt_nil]
    | cons t rest =>
      simp only [queueUpMigrations, hv]
      rw [records_append]
      have hrec : records (if (queueUpLoop sd applied limit (fun _ => false)
          t rest 0 0).2 = 0 then [ChanMsg.noChange] else []) = [] := by
        by_cases h : (queueUpLoop sd applied limit (fun _ => false) t rest 0 0).2 = 0 <;>
          simp [h, records]
      rw [hrec, List.append_nil, queueUpLoop_noStop_records,
        records_map_migr_of (mkUpMigration sd)]
      simp
  have hpre : ∃ tl, records (queueUpMigrations sd applied limit (fun _ => false)) =
      records (queueUpMigrations sd applied limit stop) ++ tl := by
    cases hv : sd.versions with
    | nil =>
      refine ⟨[], ?_⟩
      simp [queueUpMigrations, hv]
    | cons t rest =>
      obtain ⟨tl, htl⟩ := queueUpLoop_stop_initial sd applied limit stop t rest 0 0
      refine ⟨records tl, ?_⟩
      simp only [queueUpMigrations, hv]
      rw [records_append, records_append, htl, records_append]
      have h1 : ∀ res2 : Nat, records (if res2 = 0 then [ChanMsg.noChange] else []) = [] := by
        intro res2
        by_cases h : res2 = 0 <;> simp [h, records]
      rw [h1, h1, List.append_nil, List.append_nil]
  refine ⟨hchar, ?_, hpre⟩
  intro m hm
  have hmem : m ∈ records (queueUpMigrations sd applied limit (fun _ => false)) := by
    obtain ⟨tl, htl⟩ := hpre
    rw [htl]
    exact List.mem_append_left tl hm
  rw [hchar] at hmem
  obtain ⟨v, _, hv⟩ := List.mem_map.mp hmem
  rw [← hv]
  exact ⟨rfl, rfl⟩

/-- Witness for C3 on source versions 10, 20, 30 with 20 applied
and no limit. -/
theorem C3_queue_up_bulk_witness :
    records (queueUpMigrations ⟨[10, 20, 30], fun _ => none, fun _ => none⟩
        [20] (-1) (fun _ => false)) =
      [⟨10, 10, true, none⟩, ⟨30, 30, true, none⟩] := by
  have h := (C3_queue_up_bulk ⟨[10, 20, 30], fun _ => none, fun _ => none⟩
    [20] (-1) (fun _ => false) (by norm_num [List.chain'_cons])).1
  rw [h]
  decide

/-- The Down records the Bulk-Down walk builds from an applied list:
each version paired with the next list element as target, the last one
with `-1`. -/
def downCandidates (sd : SourceModel) (applied : List Int) : List Migration :=
  (applied.zip (applied.tail ++ [-1])).map
    (fun p => mkDownMigration sd p.1.toNat p.2)

/-- Unfolding `downCandidates` one element at a time. -/
theorem downCandidates_cons (sd : SourceModel) (v : Int) (rest : List Int) :
    downCandidates sd (v :: rest) =
      mkDownMigration sd v.toNat
        (match rest with | [] => -1 | v' :: _ => v') :: downCandidates sd rest := by
  cases rest <;> simp [downCandidates]

/-- With the stop flag never set, the Bulk-Down loop emits exactly the
Down candidates in list order, truncated by the remaining limit. -/
theorem queueDownLoop_noStop_records (sd : SourceModel) (limit : Int)
    (l : List Int) (count polls : Nat) :
    (queueDownLoop sd limit (fun _ => false) l count polls).1 =
      (takeOpt (if limit = -1 then none else some (limit.toNat - count))
        (downCandidates sd l)).map ChanMsg.migr := by
  by_cases hl1 : limit = -1
  · subst hl1
    simp only [if_pos rfl]
    induction l generalizing count polls with
    | nil => simp [queueDownLoop, downCandidates, takeOpt]
    | cons v rest ih =>
      rw [queueDownLoop.eq_def, downCandidates_cons]
      simp [takeOpt, ih (count + 1) (polls + 1)]
  · simp only [if_neg hl1]
    induction l generalizing count polls with
    | nil => simp [queueDownLoop, downCandidates, takeOpt]
    | cons v rest ih =>
      rw [queueDownLoop.eq_def, downCandidates_cons]
      by_cases hc : count < limit.toNat
      · have hci : ¬(limit ≠ -1 ∧ limit ≤ (count : Int)) := by
          intro h
          have := Int.lt_toNat.mp hc
          omega
        have htake : limit.toNat - count = (limit.toNat - (count + 1)) + 1 := by
          omega
        rw [htake]
        simp [hci, takeOpt, ih (count + 1) (polls + 1)]
      · have hci : limit ≠ -1 ∧ limit ≤ (count : Int) := by
          constructor
          · exact hl1
          · by_contra h
            push_neg at h
            exact hc (Int.lt_toNat.mpr h)
        have hz : limit.toNat - count = 0 := by omega
        simp [hci, hz, takeOpt]

/-- Whatever the stop flag does, the Bulk-Down loop emits an initial
segment of the no-stop emission. -/
theorem queueDownLoop_stop_initial (sd : SourceModel) (limit : Int)
    (stop : Nat → Bool) (l : List Int) (count polls : Nat) :
    ∃ tl, (queueDownLoop sd limit (fun _ => false) l count polls).1 =
      (queueDownLoop sd limit stop l count polls).1 ++ tl := by
  induction l generalizing count polls with
  | nil => exact ⟨[], by simp [queueDownLoop]⟩
  | cons v rest ih =>
    rw [queueDownLoop.eq_def, queueDownLoop.eq_def]
    by_cases hs : stop polls
    · exact ⟨(queueDownLoop sd limit (fun _ => false) (v :: rest) count polls).1,
        by rw [queueDownLoop.eq_def]; simp [hs]⟩
    · by_cases hlim : limit ≠ -1 ∧ limit ≤ (count : Int)
      · exact ⟨[], by simp [hs, hlim]⟩
      · obtain ⟨tl, htl⟩ := ih (count + 1) (polls + 1)
        exact ⟨tl, by simp [hs, hlim, htl]⟩

/-- The Bulk-Down loop emits only Migration Records and counts them. -/
theorem queueDownLoop_shape (sd : SourceModel) (limit : Int)
    (stop : Nat → Bool) (l : List Int) (count polls : Nat) :
    ∃ ms : List Migration,
      (queueDownLoop sd limit stop l count polls).1 = ms.map ChanMsg.migr
      ∧ (queueDownLoop sd limit stop l count polls).2 = count + ms.length := by
  induction l generalizing count polls with
  | nil => exact ⟨[], by simp [queueDownLoop]⟩
  | cons v rest ih =>
    rw [queueDownLoop.eq_def]
    by_cases hs : stop polls
    · exact ⟨[], by simp [hs]⟩
    · by_cases hlim : limit ≠ -1 ∧ limit ≤ (count : Int)
      · exact ⟨[], by simp [hs, hlim]⟩
      · obtain ⟨ms, h1, h2⟩ := ih (count + 1) (polls + 1)
        refine ⟨mkDownMigration sd v.toNat
          (match rest with | [] => -1 | v' :: _ => v') :: ms, ?_, ?_⟩
        · simp [hs, hlim, h1]
          cases rest <;> rfl
        · simp [hs, hlim, h2]
          omega

/-- C4: for a non-empty applied list (given in descending order) and
`limit ≠ 0`, `queueDownMigrations` enqueues a Down record per applied
version in list order, with `targetVersion` the next list element or
`-1` for the last, truncated at `limit` records (no truncation for
`limit = -1`) or list exhaustion; for an empty list or `limit = 0` it
emits `NoChange` immediately and enqueues nothing; and under an
arbitrary stop flag it only ever emits an initial segment of that. -/
theorem C4_queue_down_bulk (sd : SourceModel) (applied : List Int) (limit : Int)
    (stop : Nat → Bool) (hdesc : List.Chain' (· > ·) applied) :
    (applied ≠ [] → limit ≠ 0 →
      records (queueDownMigrations sd applied limit (fun _ => false)) =
        takeOpt (if limit = -1 then none else some limit.toNat)
          ((applied.zip (applied.tail ++ [-1])).map
            (fun p => mkDownMigration sd p.1.toNat p.2)))
    ∧ (applied = [] ∨ limit = 0 →
        queueDownMigrations sd applied limit stop = [ChanMsg.noChange])
    ∧ ∃ tl, records (queueDownMigrations sd applied limit (fun _ => false)) =
        records (queueDownMigrations sd applied limit stop) ++ tl := by
  refine ⟨?_, ?_, ?_⟩
  · intro hne hl0
    have hcond : ¬(applied = [] ∨ limit = 0) := by
      intro h
      rcases h with h | h
      · exact hne h
      · exact hl0 h
    simp only [queueDownMigrations, if_neg hcond]
    rw [records_append]
    have hrec : records (if (queueDownLoop sd limit (fun _ => false)
        applied 0 0).2 = 0 then [ChanMsg.noChange] else []) = [] := by
      by_cases h : (queueDownLoop sd limit (fun _ => false) applied 0 0).2 = 0 <;>
        simp [h, records]
    rw [hrec, List.append_nil, queueDownLoop_noStop_records, records_map_migr]
    simp [downCandidates]
  · intro hcond
    simp [queueDownMigrations, hcond]
  · by_cases hcond : applied = [] ∨ limit = 0
    · exact ⟨[], by simp [queueDownMigrations, hcond]⟩
    · obtain ⟨tl, htl⟩ := queueDownLoop_stop_initial sd limit stop applied 0 0
      refine ⟨records tl, ?_⟩
      simp only [queueDownMigrations, if_neg hcond]
      rw [records_append, records_append, htl, records_append]
      have h1 : ∀ res2 : Nat, records (if res2 = 0 then [ChanMsg.noChange] else []) = [] := by
        intro res2
        by_cases h : res2 = 0 <;> simp [h, records]
      rw [h1, h1, List.append_nil, List.append_nil]

/-- Witness for C4 on the applied list 30, 20, 10 with no limit:
each version targets the next older one and the oldest targets -1. -/
theorem C4_queue_down_bulk_witness :
    records (queueDownMigrations ⟨[], fun _ => none, fun _ => none⟩
        [30, 20, 10] (-1) (fun _ => false)) =
      [⟨30, 20, false, none⟩, ⟨20, 10, false, none⟩, ⟨10, -1, false, none⟩] := by
  have h := (C4_queue_down_bulk ⟨[], fun _ => none, fun _ => none⟩
    [30, 20, 10] (-1) (fun _ => false) (by norm_num [List.chain'_cons])).1
    (by decide) (by decide)
  rw [h]
  decide

/-- C6 counterexample: with source version 1, nothing applied, no
limit, and the stop flag already set at the first poll, the Bulk-Up
pipeline enqueues zero records because of cancellation — and still
emits `NoChange` as the terminal value, contradicting the claim that
no `NoChange` is emitted when zero records are due to the stop flag. -/
theorem C6_stop_still_emits_noChange :
    queueUpMigrations ⟨[1], fun _ => none, fun _ => none⟩ [] (-1)
        (fun _ => true) = [ChanMsg.noChange]
    ∧ records (queueUpMigrations ⟨[1], fun _ => none, fun _ => none⟩ [] (-1)
        (fun _ => true)) = [] := by
  constructor <;> decide

/-- C6 as amended: each bulk pipeline emits `NoChange` as the terminal
channel value exactly when zero records were enqueued, regardless of
the reason — cancellation included; when at least one record was
enqueued, no `NoChange` appears at all. (In the list-backed source
model no generic source errors arise.) -/
theorem C6_noChange_iff_zero_records (sd : SourceModel) (applied : List Int)
    (limit : Int) (stop : Nat → Bool) :
    (records (queueUpMigrations sd applied limit stop) = [] →
      (queueUpMigrations sd applied limit stop).getLast? = some ChanMsg.noChange)
    ∧ (records (queueUpMigrations sd applied limit stop) ≠ [] →
      ChanMsg.noChange ∉ queueUpMigrations sd applied limit stop)
    ∧ (records (queueDownMigrations sd applied limit stop) = [] →
      (queueDownMigrations sd applied limit stop).getLast? = some ChanMsg.noChange)
    ∧ (records (queueDownMigrations sd applied limit stop) ≠ [] →
      ChanMsg.noChange ∉ queueDownMigrations sd applied limit stop) := by
  have hupshape : ∀ out : List ChanMsg, (∃ ms : List Migration,
      out = ms.map ChanMsg.migr ++ (if ms.length = 0 then [ChanMsg.noChange] else [])) →
      (records out = [] → out.getLast? = some ChanMsg.noChange)
      ∧ (records out ≠ [] → ChanMsg.noChange ∉ out) := by
    intro out ⟨ms, hms⟩
    subst hms
    constructor
    · intro hrec
      rw [records_append, records_map_migr] at hrec
      have hms0 : ms = [] := by
        cases ms with
        | nil => rfl
        | cons m ms => simp [records] at hrec
      subst hms0
      simp
    · intro hrec
      rw [records_append, records_map_migr] at hrec
      have hms0 : ms ≠ [] := by
        intro h
        subst h
        simp [records] at hrec
      have hlen : ¬(ms.length = 0) := by
        simpa [List.length_eq_zero] using hms0
      simp only [if_neg hlen, List.append_nil]
      intro hmem
      obtain ⟨m, _, hmigr⟩ := List.mem_map.mp hmem
      exact ChanMsg.noConfusion hmigr
  refine ⟨?_, ?_, ?_, ?_⟩
  case _ =>
    refine (hupshape _ ?_).1
    cases hv : sd.versions with
    | nil => exact ⟨[], by simp [queueUpMigrations, hv]⟩
    | cons t rest =>
      obtain ⟨ms, h1, h2⟩ := queueUpLoop_shape sd applied limit stop t rest 0 0
      exact ⟨ms, by simp [queueUpMigrations, hv, h1, h2]⟩
  case _ =>
    refine (hupshape _ ?_).2
    cases hv : sd.versions with
    | nil => exact ⟨[], by simp [queueUpMigrations, hv]⟩
    | cons t rest =>
      obtain ⟨ms, h1, h2⟩ := queueUpLoop_shape sd applied limit stop t rest 0 0
      exact ⟨ms, by simp [queueUpMigrations, hv, h1, h2]⟩
  case _ =>
    refine (hupshape _ ?_).1
    by_cases hcond : applied = [] ∨ limit = 0
    · exact ⟨[], by simp [queueDownMigrations, hcond]⟩
    · obtain ⟨ms, h1, h2⟩ := queueDownLoop_shape sd limit stop applied 0 0
      exact ⟨ms, by simp [queueDownMigrations, hcond, h1, h2]⟩
  case _ =>
    refine (hupshape _ ?_).2
    by_cases hcond : applied = [] ∨ limit = 0
    · exact ⟨[], by simp [queueDownMigrations, hcond]⟩
    · obtain ⟨ms, h1, h2⟩ := queueDownLoop_shape sd limit stop applied 0 0
      exact ⟨ms, by simp [queueDownMigrations, hcond, h1, h2]⟩

/-- Witness for the amended C6: a run that enqueued records has no
`NoChange`, and a cancelled empty run ends in `NoChange`. -/
theorem C6_noChange_iff_zero_records_witness :
    ChanMsg.noChange ∉ queueUpMigrations ⟨[10], fun _ => none, fun _ => none⟩
        [] (-1) (fun _ => false)
    ∧ (queueUpMigrations ⟨[10], fun _ => none, fun _ => none⟩ [] (-1)
        (fun _ => true)).getLast? = some ChanMsg.noChange := by
  constructor
  · exact (C6_noChange_iff_zero_records ⟨[10], fun _ => none, fun _ => none⟩
      [] (-1) (fun _ => false)).2.1 (by decide)
  · exact (C6_noChange_iff_zero_records ⟨[10], fun _ => none, fun _ => none⟩
      [] (-1) (fun _ => true)).1 (by decide)

/-- The exact trace of driver operations a record's execution issues
on an Extended driver when nothing fails (mark dirty, optional run,
mark clean). -/
def recordTrace (m : Migration) : List DriverOp :=
  markDirtyOp true m :: (bodyOps m ++ [markCleanOp true m])

/-- Backend state after executing one record through
`handleSingleMigration` on an Extended driver with no failures. -/
def execRecord (st : DbState) (m : Migration) : DbState :=
  (handleSingleMigration true (fun _ => none) m st).2.1

/-- All backend states passed through while executing one record:
the scan of the record's trace. -/
def recordStates (st : DbState) (m : Migration) : List DbState :=
  List.scanl applyOp st (recordTrace m)

/-- All backend states passed through while executing a list of
records in order. -/
def reachableStates : DbState → List Migration → List DbState
  | st, [] => [st]
  | st, m :: ms => recordStates st m ++ reachableStates (execRecord st m) ms

/-- The backend states between records: before the first record,
between any two, and after the last. -/
def betweenStates : DbState → List Migration → List DbState
  | st, [] => [st]
  | st, m :: ms => st :: betweenStates (execRecord st m) ms

/-- How many history rows are flagged dirty. -/
def dirtyCount (st : DbState) : Nat :=
  (st.ext.filter (fun r => r.dirty)).length

/-- The per-record preconditions under which records are queued: an Up
record's version has no history row yet (it was not applied), a Down
record's version has exactly one (it was applied, timestamps being
unique). -/
def validRunB : DbState → List Migration → Bool
  | _, [] => true
  | st, m :: ms =>
    (if m.UpKindMigration then countRows st.ext m.Version == 0
     else countRows st.ext m.Version == 1)
    && validRunB (execRecord st m) ms

/-- Zero dirty rows means every row is clean. -/
theorem dirtyCount_eq_zero_iff (st : DbState) :
    dirtyCount st = 0 ↔ ∀ r ∈ st.ext, r.dirty = false := by
  rw [dirtyCount, List.length_eq_zero, List.filter_eq_nil_iff]
  constructor
  · intro h r hr
    simpa using h r hr
  · intro h r hr
    simpa using h r hr

/-- Inserting the dirty row adds one to the dirty count. -/
theorem dirtyCount_addDirty (l : List Row) (v : Nat) :
    ((AddDirtyMigration l v).filter (fun r => r.dirty)).length =
      (l.filter (fun r => r.dirty)).length + 1 := by
  simp [AddDirtyMigration, List.filter_append]

/-- Flagging a version dirty in an all-clean table yields as many
dirty rows as that version has rows. -/
theorem dirtyCount_update_true (l : List Row) (v : Nat)
    (h : ∀ r ∈ l, r.dirty = false) :
    ((UpdateMigrationDirtyFlag l v true).filter (fun r => r.dirty)).length =
      countRows l v := by
  induction l with
  | nil => rfl
  | cons r rest ih =>
    have hr : r.dirty = false := h r (List.mem_cons_self r rest)
    have hrest : ∀ s ∈ rest, s.dirty = false :=
      fun s hs => h s (List.mem_cons_of_mem r hs)
    have ih2 := ih hrest
    rw [UpdateMigrationDirtyFlag] at ih2 ⊢
    by_cases hts : r.ts = v
    · simp only [List.map_cons, if_pos hts, List.filter_cons, countRows] at ih2 ⊢
      simp [hts, ih2]
    · simp only [List.map_cons, if_neg hts, List.filter_cons, countRows] at ih2 ⊢
      simp [hts, hr, ih2]

/-- Clearing the flag of the only possibly-dirty version leaves every
row clean. -/
theorem clean_after_update_false (l : List Row) (v : Nat)
    (h : ∀ r ∈ l, r.dirty = true → r.ts = v) :
    ∀ r ∈ UpdateMigrationDirtyFlag l v false, r.dirty = false := by
  intro r hr
  obtain ⟨s, hs, himg⟩ := List.mem_map.mp hr
  by_cases hts : s.ts = v
  · rw [← himg]
    simp [hts]
  · rw [← himg]
    simp only [if_neg hts]
    by_contra hd
    exact hts (h s hs (by simpa using hd))

/-- Removing the flagged version from an initially all-clean table
leaves every row clean. -/
theorem clean_after_remove (l : List Row) (v : Nat)
    (h : ∀ r ∈ l, r.dirty = false) :
    ∀ r ∈ RemoveMigration (UpdateMigrationDirtyFlag l v true) v,
      r.dirty = false := by
  intro r hr
  rw [RemoveMigration, List.mem_filter] at hr
  obtain ⟨hmem, hne⟩ := hr
  obtain ⟨s, hs, himg⟩ := List.mem_map.mp hmem
  by_cases hts : s.ts = v
  · exfalso
    rw [← himg] at hne
    simp [hts] at hne
  · rw [← himg]
    simp only [if_neg hts]
    exact h s hs

/-- Each state passed through while executing one record is the start
state, the post-mark-dirty state, or the final state (the body run
does not touch the bookkeeping state). -/
theorem recordStates_cases (st : DbState) (m : Migration) :
    ∀ t ∈ recordStates st m,
      t = st ∨ t = applyOp st (markDirtyOp true m)
      ∨ t = applyOp (applyOp st (markDirtyOp true m)) (markCleanOp true m) := by
  intro t ht
  rw [recordStates, recordTrace] at ht
  cases hb : m.Body with
  | none =>
    simp [bodyOps, hb, List.scanl] at ht
    tauto
  | some b =>
    simp [bodyOps, hb, List.scanl, applyOp] at ht
    tauto

/-- Executing one record on an all-clean table whose version occurs as
the record's direction requires leaves the table all clean again, never
has more than one dirty row in any intermediate state, and has exactly
one dirty row right after the mark-dirty step. -/
theorem execRecord_props (st : DbState) (m : Migration)
    (h0 : ∀ r ∈ st.ext, r.dirty = false)
    (hpre : if m.UpKindMigration then countRows st.ext m.Version = 0
            else countRows st.ext m.Version = 1) :
    (∀ r ∈ (execRecord st m).ext, r.dirty = false)
    ∧ (∀ t ∈ recordStates st m, dirtyCount t ≤ 1)
    ∧ dirtyCount (applyOp st (markDirtyOp true m)) = 1 := by
  have hexec : execRecord st m =
      applyOp (applyOp st (markDirtyOp true m)) (markCleanOp true m) := by
    rw [execRecord, handleSingleMigration_noFail true _ m st (fun _ => rfl)]
  have hst0 : dirtyCount st = 0 := (dirtyCount_eq_zero_iff st).mpr h0
  have hs1 : dirtyCount (applyOp st (markDirtyOp true m)) = 1 := by
    cases hup : m.UpKindMigration with
    | true =>
      have hdop : markDirtyOp true m = DriverOp.addDirtyMigration m.Version := by
        simp [markDirtyOp, hup]
      rw [hdop]
      simp only [dirtyCount] at hst0 ⊢
      simp only [applyOp]
      rw [dirtyCount_addDirty]
      omega
    | false =>
      have hdop : markDirtyOp true m =
          DriverOp.updateMigrationDirtyFlag m.Version true := by
        simp [markDirtyOp, hup]
      rw [hdop]
      simp only [applyOp, dirtyCount]
      rw [dirtyCount_update_true st.ext m.Version h0]
      simpa [hup] using hpre
  have hclean2 : ∀ r ∈ (execRecord st m).ext, r.dirty = false := by
    rw [hexec]
    cases hup : m.UpKindMigration with
    | true =>
      have hdop : markDirtyOp true m = DriverOp.addDirtyMigration m.Version := by
        simp [markDirtyOp, hup]
      have hcop : markCleanOp true m =
          DriverOp.updateMigrationDirtyFlag m.Version false := by
        simp [markCleanOp, hup]
      rw [hdop, hcop]
      simp only [applyOp]
      refine clean_after_update_false _ m.Version ?_
      intro r hr hd
      rcases List.mem_append.mp hr with h | h
      · exact absurd hd (by simp [h0 r h])
      · simp only [List.mem_singleton] at h
        rw [h]
    | false =>
      have hdop : markDirtyOp true m =
          DriverOp.updateMigrationDirtyFlag m.Version true := by
        simp [markDirtyOp, hup]
      have hcop : markCleanOp true m = DriverOp.removeMigration m.Version := by
        simp [markCleanOp, hup]
      rw [hdop, hcop]
      simp only [applyOp]
      exact clean_after_remove st.ext m.Version h0
  refine ⟨hclean2, ?_, hs1⟩
  intro t ht
  rcases recordStates_cases st m t ht with rfl | rfl | rfl
  · omega
  · omega
  · have : dirtyCount (applyOp (applyOp st (markDirtyOp true m)) (markCleanOp true m)) = 0 := by
      rw [← hexec]
      exact (dirtyCount_eq_zero_iff _).mpr hclean2
    omega

/-- C5: starting from a backend with no dirty row and executing any
sequence of records that satisfies the queueing preconditions (Up
records for versions with no history row, Down records for versions
with exactly one), every state passed through has at most one dirty
row; between records no row is dirty; and during each record, right
after its mark-dirty step, exactly one row is dirty — the executor
sets one marker and clears or removes that same marker before the next
record. (On a Basic driver the marker is a single pointer, so at most
one marker exists by construction.) -/
theorem C5_at_most_one_dirty (st : DbState) (ms : List Migration)
    (h0 : dirtyCount st = 0) (hv : validRunB st ms = true) :
    (∀ t ∈ reachableStates st ms, dirtyCount t ≤ 1)
    ∧ (∀ t ∈ betweenStates st ms, dirtyCount t = 0)
    ∧ (∀ p ∈ (betweenStates st ms).zip ms,
        dirtyCount (applyOp p.1 (markDirtyOp true p.2)) = 1) := by
  induction ms generalizing st with
  | nil =>
    refine ⟨?_, ?_, ?_⟩
    · intro t ht
      rw [reachableStates] at ht
      simp only [List.mem_singleton] at ht
      rw [ht, h0]
      omega
    · intro t ht
      rw [betweenStates] at ht
      simp only [List.mem_singleton] at ht
      rw [ht, h0]
    · intro p hp
      rw [betweenStates] at hp
      simp at hp
  | cons m ms ih =>
    rw [validRunB, Bool.and_eq_true] at hv
    obtain ⟨hpreb, hv2⟩ := hv
    have hpre : if m.UpKindMigration then countRows st.ext m.Version = 0
        else countRows st.ext m.Version = 1 := by
      cases hup : m.UpKindMigration <;> simp [hup] at hpreb ⊢ <;> exact hpreb
    have h02 : ∀ r ∈ st.ext, r.dirty = false := (dirtyCount_eq_zero_iff st).mp h0
    obtain ⟨hclean2, hrec, hmark⟩ := execRecord_props st m h02 hpre
    obtain ⟨ih1, ih2, ih3⟩ := ih (execRecord st m)
      ((dirtyCount_eq_zero_iff _).mpr hclean2) hv2
    refine ⟨?_, ?_, ?_⟩
    · intro t ht
      rw [reachableStates] at ht
      rcases List.mem_append.mp ht with h | h
      · exact hrec t h
      · exact ih1 t h
    · intro t ht
      rw [betweenStates] at ht
      rcases List.mem_cons.mp ht with rfl | h
      · exact h0
      · exact ih2 t h
    · intro p hp
      rw [betweenStates] at hp
      rcases List.mem_cons.mp hp with rfl | h
      · exact hmark
      · exact ih3 p h

/-- Witness for C5: a concrete run applying Up 10 (with a body) and
then reverting it with Down 10. -/
theorem C5_at_most_one_dirty_witness :
    dirtyCount ⟨[], 0, false⟩ = 0
    ∧ validRunB ⟨[], 0, false⟩ [⟨10, 10, true, some 1⟩, ⟨10, -1, false, some 2⟩] = true
    ∧ (∀ t ∈ reachableStates ⟨[], 0, false⟩
        [⟨10, 10, true, some 1⟩, ⟨10, -1, false, some 2⟩], dirtyCount t ≤ 1)
    ∧ (∀ t ∈ betweenStates ⟨[], 0, false⟩
        [⟨10, 10, true, some 1⟩, ⟨10, -1, false, some 2⟩], dirtyCount t = 0) := by
  have h := C5_at_most_one_dirty ⟨[], 0, false⟩
    [⟨10, 10, true, some 1⟩, ⟨10, -1, false, some 2⟩] (by decide) (by decide)
  exact ⟨by decide, by decide, h.1, h.2.1⟩

/-- Model of `GetAllAppliedMigrations` (postgres_extended.go:103):
`SELECT migration_timestamp FROM t ORDER BY migration_timestamp DESC`—
the table's timestamps arranged in descending order. -/
def GetAllAppliedMigrations (l : List Row) : List Int :=
  List.insertionSort (fun a b => a ≥ b) (l.map (fun r => (r.ts : Int)))

/-- C9: `GetAllAppliedMigrations` returns the applied migration
timestamps of the history table, each exactly once, sorted strictly
descending (timestamps are unique, the table being keyed on them —
the schema is not among the sources, so uniqueness is a hypothesis).
This is exactly the order `queueDownMigrations` assumes when it takes
the next list element as the next older applied version. -/
theorem C9_applied_descending (l : List Row) (hnd : (l.map Row.ts).Nodup) :
    List.Chain' (· > ·) (GetAllAppliedMigrations l)
    ∧ (GetAllAppliedMigrations l).Perm (l.map (fun r => (r.ts : Int))) := by
  have hperm : (GetAllAppliedMigrations l).Perm (l.map (fun r => (r.ts : Int))) :=
    List.perm_insertionSort _ _
  refine ⟨?_, hperm⟩
  have hsorted : List.Sorted (fun a b => a ≥ b) (GetAllAppliedMigrations l) :=
    List.sorted_insertionSort _ _
  have hmapint : l.map (fun r => (r.ts : Int)) =
      (l.map Row.ts).map Int.ofNat := by
    rw [List.map_map]
    rfl
  have hndint : (l.map (fun r => (r.ts : Int))).Nodup := by
    rw [hmapint]
    exact hnd.map (fun a b h => Int.ofNat.inj h)
  have hnds : (GetAllAppliedMigrations l).Nodup :=
    hperm.nodup_iff.mpr hndint
  have hpair := (List.Pairwise.and hsorted hnds :
    List.Pairwise (fun a b => a ≥ b ∧ a ≠ b) (GetAllAppliedMigrations l))
  exact List.Pairwise.chain'
    (hpair.imp (fun h => lt_of_le_of_ne h.1 (Ne.symm h.2)))

/-- Witness for C9: a concrete unsorted table with unique timestamps. -/
theorem C9_applied_descending_witness :
    GetAllAppliedMigrations [⟨20, false⟩, ⟨30, false⟩, ⟨10, false⟩] =
      [30, 20, 10]
    ∧ List.Chain' (· > ·)
        (GetAllAppliedMigrations [⟨20, false⟩, ⟨30, false⟩, ⟨10, false⟩]) := by
  refine ⟨by decide, ?_⟩
  exact (C9_applied_descending [⟨20, false⟩, ⟨30, false⟩, ⟨10, false⟩]
    (by decide)).1

/-- What a single-row query against the backend can come back with:
a row, `sql.ErrNoRows`, the `undefined_table` Postgres error, or any
other error. -/
inductive QueryOutcome (α : Type) where
  | row (a : α)
  | noRows
  | undefinedTable
  | otherErr (code : Nat)
  deriving DecidableEq, Repr

/-- A wrapped `database.Error` carrying the underlying error code. -/
structure DbErr where
  code : Nat
  deriving DecidableEq, Repr

/-- The error dispatch of `IsMigrationApplied`
(postgres_extended.go:247-262): `sql.ErrNoRows` and `undefined_table`
both yield `(false, nil)`; any other error is wrapped and returned. -/
def IsMigrationAppliedPg (outcome : QueryOutcome Bool) : Except DbErr Bool :=
  match outcome with
  | .row b => Except.ok b
  | .noRows => Except.ok false
  | .undefinedTable => Except.ok false
  | .otherErr c => Except.error ⟨c⟩

/-- The error dispatch of `IsDatabaseDirty`
(postgres_extended.go:319-334): `undefined_table` and `sql.ErrNoRows`
both yield `(0, false, nil)`; any other error is wrapped. -/
def IsDatabaseDirtyPg (outcome : QueryOutcome Int) : Except DbErr (Int × Bool) :=
  match outcome with
  | .row ts => Except.ok (ts, true)
  | .undefinedTable => Except.ok (0, false)
  | .noRows => Except.ok (0, false)
  | .otherErr c => Except.error ⟨c⟩

/-- Outcome of `SELECT COUNT(*) > 0 ... WHERE migration_timestamp = v`
against an optional table (`none` = the table does not exist). A count
query on an existing table always yields a row. -/
def queryIsApplied (table : Option (List Row)) (v : Nat) : QueryOutcome Bool :=
  match table with
  | none => QueryOutcome.undefinedTable
  | some l => QueryOutcome.row (IsMigrationApplied l v)

/-- Outcome of `SELECT migration_timestamp ... WHERE dirty = true
LIMIT 1` against an optional table. -/
def queryDirtyRow (table : Option (List Row)) : QueryOutcome Int :=
  match table with
  | none => QueryOutcome.undefinedTable
  | some l =>
    match l.find? (fun r => r.dirty) with
    | some r => QueryOutcome.row (r.ts : Int)
    | none => QueryOutcome.noRows

/-- C10: when the migrations table does not exist,
`IsMigrationApplied(v)` returns `(false, nil)` and `IsDatabaseDirty()`
returns `(0, false, nil)` rather than an error; likewise
`IsDatabaseDirty` on a table with no dirty row returns
`(0, false, nil)`, and `IsMigrationApplied` on an empty history
returns `(false, nil)` — a fresh database behaves as "nothing applied,
not dirty". -/
theorem C10_fresh_database_not_error (v : Nat) (l : List Row) :
    IsMigrationAppliedPg (queryIsApplied none v) = Except.ok false
    ∧ IsDatabaseDirtyPg (queryDirtyRow none) = Except.ok (0, false)
    ∧ ((∀ r ∈ l, r.dirty = false) →
        IsDatabaseDirtyPg (queryDirtyRow (some l)) = Except.ok (0, false))
    ∧ IsMigrationAppliedPg (queryIsApplied (some []) v) = Except.ok false := by
  refine ⟨rfl, rfl, ?_, rfl⟩
  intro h
  have hfind : l.find? (fun r => r.dirty) = none := by
    rw [List.find?_eq_none]
    intro r hr
    simp [h r hr]
  simp [IsDatabaseDirtyPg, queryDirtyRow, hfind]

/-- Witness for C10 on a concrete clean one-row table. -/
theorem C10_fresh_database_not_error_witness :
    IsDatabaseDirtyPg (queryDirtyRow (some [⟨10, false⟩])) =
      Except.ok (0, false)
    ∧ IsMigrationAppliedPg (queryIsApplied none 10) = Except.ok false := by
  constructor
  · exact (C10_fresh_database_not_error 10 [⟨10, false⟩]).2.2.1 (by decide)
  · exact (C10_fresh_database_not_error 10 [⟨10, false⟩]).1

end Histomigrate
